import Mathlib

/-!
# Verification of the salah-at-35k in-flight prayer-schedule calculator

A shallow embedding of the core computation of `salah_at_35k_calculator.py`.

Modelling conventions:
* Python floats are modelled by `ℚ` (exact arithmetic); the float `NaN`
  produced for unparsable samples is modelled by `none` in `Option ℚ`.
* Where a property genuinely depends on IEEE binary64 rounding, a separate
  rational model `fl` of round-to-nearest-even binary64 is used (validated
  against the reference semantics; all magnitudes involved are normal, so
  overflow and subnormal handling are not needed).
* Python strings are modelled by `List Char`.
* Geometry (`qibla_direction`) is modelled over `ℝ`.
-/

namespace Salah35k

/-- Python `int(q)`: truncation toward zero. -/
def pyInt (q : ℚ) : ℤ := if 0 ≤ q then ⌊q⌋ else -⌊-q⌋

/-- Python `a % b` on numbers, for `b > 0` (floor-mod). -/
def pyMod (a b : ℚ) : ℚ := a - b * ⌊a / b⌋

/-- `text.split(sep)` for a one-character separator. -/
def splitOnChar (sep : Char) : List Char → List (List Char)
  | [] => [[]]
  | c :: cs =>
    let r := splitOnChar sep cs
    if c = sep then [] :: r
    else
      match r with
      | [] => [[c]]
      | h :: t => (c :: h) :: t

/-- Python `int(text)` on a decimal-digit string; `none` when unparsable
(where the source would raise `ValueError`). -/
def parseNat (cs : List Char) : Option ℕ :=
  if cs = [] ∨ ¬ cs.all Char.isDigit then none
  else some (cs.foldl (fun a c => a * 10 + (c.toNat - 48)) 0)

/-- Decimal rendering of a natural number, python `str(n)`. -/
def natDigits (n : ℕ) : List Char := Nat.toDigits 10 n

/-- Python `f"{n:02d}"` for the nonnegative integers produced by the
converters (zero-pad to two digits). -/
def twoDigit (n : ℤ) : List Char :=
  if n < 10 then '0' :: natDigits n.toNat else natDigits n.toNat

/-- `Extract24HrTime` (source lines 74–91): parse a 12-hour clock string
`"HH:MM AM|PM"` into `(hour24, minute)`.  The sentinel `"-----"` returns
NaN in the source; that and any unparsable field are modelled by `none`. -/
def Extract24HrTime (s : List Char) : Option (ℕ × ℕ) :=
  if s = ("-----").data then none
  else
    let exc_day := s.drop (s.length - 2)
    let exc_time := s.take (s.length - 3)
    let parts := splitOnChar ':' exc_time
    match parts[0]?, parts[1]? with
    | some p0, some p1 =>
      match parseNat p0, parseNat p1 with
      | some hr, some mins =>
        if exc_day = ("PM").data then
          if hr ≠ 12 then some (hr + 12, mins) else some (hr, mins)
        else
          if hr = 12 then some (0, mins) else some (hr, mins)
      | _, _ => none
    | _, _ => none

/-- `ConvertTo12Hr` (source lines 94–108): 24-hour decimal hours to
`(hour12, minute, meridiem)`. -/
def ConvertTo12Hr (time_24 : ℚ) : ℤ × ℤ × List Char :=
  let mins : ℚ := (time_24 - (pyInt time_24 : ℚ)) * 60
  let hrs : ℤ := pyInt time_24
  if 12 < hrs then (hrs - 12, pyInt mins, ("PM").data)
  else if hrs = 12 then (hrs, pyInt mins, ("PM").data)
  else if hrs = 0 then (hrs + 12, pyInt mins, ("AM").data)
  else (hrs, pyInt mins, ("AM").data)

/-- The f-string `f"{hr:02d}:{m:02d} {ap}"` of `to_12h` (line 546). -/
def format12 (t : ℤ × ℤ × List Char) : List Char :=
  twoDigit t.1 ++ ':' :: twoDigit t.2.1 ++ ' ' :: t.2.2

/-- `to_12h` (source lines 542–546): `None` maps to the em-dash
placeholder, otherwise format through `ConvertTo12Hr`. -/
def to_12h (t : Option ℚ) : List Char :=
  match t with
  | none => ("—").data
  | some v => format12 (ConvertTo12Hr v)

/-- A well-formed 12-hour clock string `"HH:MM AM|PM"`. -/
def mk12h (h m : ℕ) (pm : Bool) : List Char :=
  twoDigit (h : ℤ) ++ ':' :: twoDigit (m : ℤ) ++ ' ' ::
    (if pm then ("PM").data else ("AM").data)

/-- The round trip of the spec: parse with `Extract24HrTime`, form the
24-hour decimal value `hour + minute/60` in exact arithmetic, format back
with `ConvertTo12Hr`. -/
def roundTripQ (s : List Char) : Option (List Char) :=
  (Extract24HrTime s).map
    (fun p => format12 (ConvertTo12Hr ((p.1 : ℚ) + (p.2 : ℚ) / 60)))

/-! ## A rational model of IEEE binary64 rounding

Used where a property depends on the floating-point evaluation performed by
the source (round to nearest, ties to even; all values normal). -/

/-- Round a rational to the nearest integer, ties to even. -/
def rhe (q : ℚ) : ℤ :=
  let f := ⌊q⌋
  let r := q - (f : ℚ)
  if r < 1/2 then f
  else if 1/2 < r then f + 1
  else if f % 2 = 0 then f else f + 1

/-- Candidate binary exponents for the values occurring in this file. -/
def expCandidates : List ℤ := (List.range 121).map (fun k => (k : ℤ) - 60)

/-- `⌊log₂ q⌋` for positive `q` in the candidate range. -/
def expOf (q : ℚ) : ℤ :=
  (expCandidates.find?
    (fun e => decide ((2 : ℚ) ^ e ≤ q ∧ q < (2 : ℚ) ^ (e + 1)))).getD 0

/-- Binary64 rounding of a positive rational. -/
def flPos (q : ℚ) : ℚ :=
  let e := expOf q
  (rhe (q * (2 : ℚ) ^ ((52 : ℤ) - e)) : ℚ) * (2 : ℚ) ^ (e - (52 : ℤ))

/-- Round a rational to the nearest IEEE binary64 value. -/
def fl (q : ℚ) : ℚ :=
  if q = 0 then 0
  else if 0 < q then flPos q
  else -flPos (-q)

/-- binary64 addition. -/
def fadd (a b : ℚ) : ℚ := fl (a + b)

/-- binary64 subtraction. -/
def fsub (a b : ℚ) : ℚ := fl (a - b)

/-- binary64 multiplication. -/
def fmul (a b : ℚ) : ℚ := fl (a * b)

/-- binary64 division. -/
def fdiv (a b : ℚ) : ℚ := fl (a / b)

/-- `ConvertTo12Hr` with the arithmetic of lines 95–96 evaluated in
binary64, as the python interpreter does. -/
def ConvertTo12HrF (time_24 : ℚ) : ℤ × ℤ × List Char :=
  let mins : ℚ := fmul (fsub time_24 (pyInt time_24 : ℚ)) 60
  let hrs : ℤ := pyInt time_24
  if 12 < hrs then (hrs - 12, pyInt mins, ("PM").data)
  else if hrs = 12 then (hrs, pyInt mins, ("PM").data)
  else if hrs = 0 then (hrs + 12, pyInt mins, ("AM").data)
  else (hrs, pyInt mins, ("AM").data)

/-- The round trip as the source actually computes it: the decimal value
`hour + minute/60` (line 387/391) and the minute recovery inside
`ConvertTo12Hr` are binary64 operations. -/
def roundTripF (s : List Char) : Option (List Char) :=
  (Extract24HrTime s).map
    (fun p => format12 (ConvertTo12HrF (fadd (p.1 : ℚ) (fdiv (p.2 : ℚ) 60))))

/-! ## NaN-aware arithmetic and the crossing detector -/

/-- Float subtraction where either operand may be NaN. -/
def nsub (a b : Option ℚ) : Option ℚ :=
  match a, b with
  | some x, some y => some (x - y)
  | _, _ => none

/-- `np.abs`, NaN-propagating. -/
def nabs (a : Option ℚ) : Option ℚ := a.map (fun x => |x|)

/-- Float `a <= c`: every comparison with NaN is false. -/
def nle (a : Option ℚ) (c : ℚ) : Bool :=
  match a with
  | some x => decide (x ≤ c)
  | none => false

/-- `np.argwhere` on a boolean condition over a vector: the indices where
the condition holds, in ascending order. -/
def argwhere (p : Option ℚ → Bool) : List (Option ℚ) → List ℕ
  | [] => []
  | d :: ds =>
    if p d then 0 :: (argwhere p ds).map (fun i => i + 1)
    else (argwhere p ds).map (fun i => i + 1)

/-- `calculate_inflight_prayertime` (source lines 111–118): first index with
`diff_time <= 0.2`; on a match return that index and the flight-clock value
there, otherwise `(NaN, NaN)` — modelled as `(none, none)`. -/
def calculate_inflight_prayertime (diff_time flight_times : List (Option ℚ)) :
    Option ℕ × Option ℚ :=
  match argwhere (fun d => nle d (1/5)) diff_time with
  | [] => (none, none)
  | i :: _ => (some i, flight_times.getD i none)

/-- `np.abs(boundary_times - flight_times)` (lines 474–479). -/
def diffTimes (boundary flight : List (Option ℚ)) : List (Option ℚ) :=
  List.zipWith (fun b f => nabs (nsub b f)) boundary flight

/-! ## Time alignment (midnight-wrap resolution, lines 392–399) -/

/-- `route_start_time` after the wrap resolution: `+24` only in the early
branch when `route_start_time < departure_time`. -/
def route_adjusted (route dep : ℚ) (early : Bool) : ℚ :=
  if early = true ∧ route < dep then route + 24 else route

/-- `departure_time` after the wrap resolution: `+24` only in the non-early
branch when `departure_time < route_start_time`. -/
def departure_adjusted (route dep : ℚ) (early : Bool) : ℚ :=
  if early = false ∧ dep < route then dep + 24 else dep

/-- The intermediate assignment inside the early branch (line 395). -/
def time_correction_early_branch (route dep : ℚ) : ℚ :=
  dep - route_adjusted route dep true

/-- The final `time_correction` (line 399), computed unconditionally after
the wrap resolution from the current values of both variables. -/
def time_correction (route dep : ℚ) (early : Bool) : ℚ :=
  departure_adjusted route dep early - route_adjusted route dep early

/-! ## Track sanitizer (lines 344–355) and the step that follows it -/

/-- One raw track row as pulled from the tracklog table; text fields only,
as consumed by the sanitizer. -/
structure RawRow where
  latText : List Char
  timeText : List Char
  facility : List Char
  feetText : List Char
deriving DecidableEq

/-- Worker for `pdUnique`: keep the values not seen before. -/
def pdUniqueAux : List (List Char) → List (List Char) → List (List Char)
  | [], _ => []
  | x :: xs, seen =>
    if x ∈ seen then pdUniqueAux xs seen
    else x :: pdUniqueAux xs (x :: seen)

/-- `Series.unique` of pandas: distinct values in order of first
occurrence. -/
def pdUnique (l : List (List Char)) : List (List Char) := pdUniqueAux l []

/-- Boolean substring containment, `needle in hay` / `str.contains`. -/
def containsSub (hay needle : List Char) : Bool :=
  match hay with
  | [] => needle.isEmpty
  | _ :: t => needle.isPrefixOf hay || containsSub t needle

/-- The sanitizer (lines 344–351): drop rows whose latitude text contains
the first five characters of any distinct reporting facility after the
first, drop rows whose latitude text contains `"Gap"`, then trim the first
5 and last 15 rows. -/
def sanitize (rows : List RawRow) : List RawRow :=
  let facilities := (pdUnique (rows.map (fun r => r.facility))).drop 1
  let rows1 := rows.filter
    (fun r => facilities.all (fun f => ! containsSub r.latText (f.take 5)))
  let rows2 := rows1.filter (fun r => ! containsSub r.latText (("Gap").data))
  let rows3 := rows2.drop 5
  rows3.take (rows3.length - 15)

/-- The computation step immediately after sanitizing: line 368 reads
`df.LatitudeLat.iloc[0]`, the first surviving row.  On an empty frame this
aborts the whole computation (the uncaught indexing error that realises the
spec's `InsufficientTrackData`); otherwise the rest of `salah_calculator`,
abstracted here as the continuation `k`, runs on the surviving rows. -/
def afterSanitize {β : Type} (rows : List RawRow) (k : RawRow → List RawRow → β) :
    Except String β :=
  match sanitize rows with
  | [] => Except.error "InsufficientTrackData"
  | r :: rs => Except.ok (k r (r :: rs))

/-! ## Schedule assembly (lines 492–557) -/

/-- One entry of the assembled schedule (lines 548–557). -/
structure ScheduleEntry where
  label : List Char
  index : Option ℕ
  time_24h : Option ℚ
  time_12h : List Char
deriving DecidableEq

/-- `round(t, 3)` (decimal rounding to 3 places, ties to even). -/
def pyRound3 (q : ℚ) : ℚ := (rhe (q * 1000) : ℚ) / 1000

/-- One `combined` tuple (lines 503–515): a valid detector index keeps its
time value, an absent one nulls both fields. -/
def toCombined (p : Option ℕ × Option ℚ) (lab : List Char) :
    (Option ℕ × Option ℚ) × List Char :=
  match p with
  | (some i, t) => ((some i, t), lab)
  | (none, _) => ((none, none), lab)

/-- The sort key `(x[0] is None, x[0] if x[0] is not None else 10**9)` of
line 518. -/
def sortKey (c : (Option ℕ × Option ℚ) × List Char) : ℕ × ℕ :=
  match c.1.1 with
  | some i => (0, i)
  | none => (1, 1000000000)

/-- Lexicographic comparison of the python sort-key tuples. -/
def combinedLE (a b : (Option ℕ × Option ℚ) × List Char) : Prop :=
  (sortKey a).1 < (sortKey b).1 ∨
    ((sortKey a).1 = (sortKey b).1 ∧ (sortKey a).2 ≤ (sortKey b).2)

instance : DecidableRel combinedLE := fun a b => by
  unfold combinedLE
  infer_instance

instance : IsTotal ((Option ℕ × Option ℚ) × List Char) combinedLE := by
  constructor
  intro a b
  unfold combinedLE
  omega

instance : IsTrans ((Option ℕ × Option ℚ) × List Char) combinedLE := by
  constructor
  intro a b c
  unfold combinedLE
  omega

/-- The boundary labels in declaration order (line 492). -/
def prayerLabels : List (List Char) :=
  [("Fajr").data, ("Sunrise").data, ("Dhuhr").data,
   ("Asr").data, ("Maghrib").data, ("Isha").data]

/-- The `combined` list in declaration order (lines 503–515). -/
def combinedOf (pf ps pd pa pm pi : Option ℕ × Option ℚ) :
    List ((Option ℕ × Option ℚ) × List Char) :=
  [toCombined pf (("Fajr").data), toCombined ps (("Sunrise").data),
   toCombined pd (("Dhuhr").data), toCombined pa (("Asr").data),
   toCombined pm (("Maghrib").data), toCombined pi (("Isha").data)]

/-- Build one schedule entry from a combined tuple (lines 548–557). -/
def entryOfC (c : (Option ℕ × Option ℚ) × List Char) : ScheduleEntry :=
  { label := c.2
    index := c.1.1
    time_24h := c.1.2.map pyRound3
    time_12h := to_12h c.1.2 }

/-- The schedule assembler (lines 492–557): build the combined tuples,
stable-sort them by the key of line 518, and format each entry. -/
def assemble (pf ps pd pa pm pi : Option ℕ × Option ℚ) : List ScheduleEntry :=
  (((combinedOf pf ps pd pa pm pi).insertionSort combinedLE).map entryOfC)

/-- The order the assembled schedule is claimed to satisfy: non-null
indices ascending, and no null-index entry before a non-null one. -/
def entryOrder (e1 e2 : ScheduleEntry) : Prop :=
  match e1.index, e2.index with
  | some i, some j => i ≤ j
  | none, some _ => False
  | _, _ => True

/-! ## `get_repeated_substring` (lines 121–126) -/

/-- Python string repetition `part * k`. -/
def pyRepeat (p : List Char) : ℕ → List Char
  | 0 => []
  | k + 1 => p ++ pyRepeat p k

/-- The candidate loop of `get_repeated_substring`, over the remaining
candidate lengths. -/
def grsAux (s : List Char) : List ℕ → List Char
  | [] => s
  | i :: is =>
    if s = pyRepeat (s.take i) (s.length / i) then s.take i
    else grsAux s is

/-- `get_repeated_substring` (lines 121–126): the shortest strict period of
the string, or the string itself. -/
def get_repeated_substring (s : List Char) : List Char :=
  grsAux s (List.range' 1 (s.length / 2))

/-! ## Qibla bearing (lines 129–146), over `ℝ` -/

noncomputable section

/-- `math.radians`. -/
def radians (d : ℝ) : ℝ := d * Real.pi / 180

/-- `math.degrees`. -/
def degrees (r : ℝ) : ℝ := r * 180 / Real.pi

/-- `math.atan2 a b`: the angle of the point `(x, y) = (b, a)`, with the
C99/IEEE convention `atan2 0 0 = 0`. -/
def atan2 (a b : ℝ) : ℝ :=
  if 0 < b then Real.arctan (a / b)
  else if b < 0 ∧ 0 ≤ a then Real.arctan (a / b) + Real.pi
  else if b < 0 ∧ a < 0 then Real.arctan (a / b) - Real.pi
  else if b = 0 ∧ 0 < a then Real.pi / 2
  else if b = 0 ∧ a < 0 then -(Real.pi / 2)
  else 0

/-- Python `a % b` over the reals, for `b > 0`. -/
def pyModR (a b : ℝ) : ℝ := a - b * ⌊a / b⌋

/-- `qibla_direction` (lines 129–146): initial great-circle bearing from
`(lat, lon)` to the Kaaba, in degrees normalized into `[0, 360)`. -/
def qibla_direction (lat lon : ℝ) : ℝ :=
  let lat1 := radians lat
  let lon1 := radians lon
  let lat2 := radians 21.4225
  let lon2 := radians 39.8262
  let delta_lon := lon2 - lon1
  let x := Real.sin delta_lon * Real.cos lat2
  let y := Real.cos lat1 * Real.sin lat2 -
    Real.sin lat1 * Real.cos lat2 * Real.cos delta_lon
  let theta := atan2 x y
  pyModR (degrees theta + 360) 360

end

/-! ## Supporting lemmas -/

attribute [local semireducible] Rat.add Rat.sub Rat.mul Rat.inv Rat.ofScientific

@[simp]
theorem nsub_none_left (b : Option ℚ) : nsub none b = none := by
  cases b <;> rfl

@[simp]
theorem nsub_none_right (a : Option ℚ) : nsub a none = none := by
  cases a <;> rfl

@[simp]
theorem nsub_some_some (x y : ℚ) : nsub (some x) (some y) = some (x - y) := rfl

theorem argwhere_eq_nil_iff (p : Option ℚ → Bool) (l : List (Option ℚ)) :
    argwhere p l = [] ↔ ∀ a ∈ l, p a = false := by
  induction l with
  | nil => simp [argwhere]
  | cons d ds ih =>
    by_cases h : p d = true
    · simp [argwhere, h]
    · simp only [Bool.not_eq_true] at h
      simp [argwhere, h, ih]

theorem argwhere_head (p : Option ℚ → Bool) :
    ∀ (l : List (Option ℚ)) (i : ℕ) (rest : List ℕ),
      argwhere p l = i :: rest →
      p (l.getD i none) = true ∧ ∀ j < i, p (l.getD j none) = false := by
  intro l
  induction l with
  | nil => intro i rest h; simp [argwhere] at h
  | cons d ds ih =>
    intro i rest h
    by_cases hd : p d = true
    · simp only [argwhere, hd, if_pos] at h
      obtain ⟨hi, -⟩ := List.cons.injEq _ _ _ _ ▸ h
      refine ⟨?_, ?_⟩
      · rw [← hi]; simpa using hd
      · intro j hj; rw [← hi] at hj; omega
    · simp only [Bool.not_eq_true] at hd
      simp only [argwhere, hd, Bool.false_eq_true, if_neg, not_false_iff] at h
      rcases harg : argwhere p ds with _ | ⟨i0, rest0⟩
      · rw [harg] at h; simp at h
      · rw [harg] at h
        simp only [List.map_cons, List.cons.injEq] at h
        obtain ⟨hi, -⟩ := h
        obtain ⟨h1, h2⟩ := ih i0 rest0 harg
        constructor
        · rw [← hi]; simpa using h1
        · intro j hj
          cases j with
          | zero => simpa using hd
          | succ j0 =>
            simp only [List.getD_cons_succ]
            exact h2 j0 (by omega)

theorem diffTimes_getD :
    ∀ (boundary flight : List (Option ℚ)) (j : ℕ),
      (diffTimes boundary flight).getD j none =
        nabs (nsub (boundary.getD j none) (flight.getD j none)) := by
  intro b
  induction b with
  | nil => intro f j; simp [diffTimes, nabs]
  | cons x bs ih =>
    intro f j
    cases f with
    | nil => simp [diffTimes, nabs]
    | cons y fs =>
      cases j with
      | zero => simp [diffTimes]
      | succ j0 => simpa [diffTimes] using ih fs j0

theorem nle_nabs_nsub_iff (b f : Option ℚ) :
    nle (nabs (nsub b f)) (1/5) = true ↔
      ∃ x y, b = some x ∧ f = some y ∧ |x - y| ≤ 1/5 := by
  cases b <;> cases f <;> simp [nsub, nabs, nle]

/-! ## Claims -/

/-- C1: for every boundary, the crossing detector selects the smallest
index within tolerance 0.2 of the flight clock (first-match, never a later
index); an index whose flight clock is NaN never satisfies the tolerance
comparison and hence is never selected; if no index satisfies the
tolerance, both components of the Crossing are null. -/
theorem C1_crossing_detector (boundary flight : List (Option ℚ)) :
    (∀ j, nle ((diffTimes boundary flight).getD j none) (1/5) = true ↔
        ∃ x y, boundary.getD j none = some x ∧ flight.getD j none = some y ∧
          |x - y| ≤ 1/5) ∧
    (∀ i, (calculate_inflight_prayertime (diffTimes boundary flight) flight).1 =
          some i →
        nle ((diffTimes boundary flight).getD i none) (1/5) = true ∧
        ∀ j < i, nle ((diffTimes boundary flight).getD j none) (1/5) = false) ∧
    (∀ j, flight.getD j none = none →
        nle ((diffTimes boundary flight).getD j none) (1/5) = false) ∧
    ((calculate_inflight_prayertime (diffTimes boundary flight) flight).1 =
        none →
      (∀ j, nle ((diffTimes boundary flight).getD j none) (1/5) = false) ∧
      (calculate_inflight_prayertime (diffTimes boundary flight) flight).2 =
        none) := by
  refine ⟨?_, ?_, ?_, ?_⟩
  · intro j
    rw [diffTimes_getD]
    exact nle_nabs_nsub_iff _ _
  · intro i h
    unfold calculate_inflight_prayertime at h
    rcases harg : argwhere (fun d => nle d (1/5)) (diffTimes boundary flight)
      with _ | ⟨i0, rest⟩
    · rw [harg] at h
      simp at h
    · rw [harg] at h
      simp only [Option.some.injEq] at h
      obtain ⟨h1, h2⟩ := argwhere_head _ _ _ _ harg
      rw [← h]
      exact ⟨h1, fun j hj => by simpa using h2 j hj⟩
  · intro j hj
    rw [diffTimes_getD, hj]
    simp [nabs, nle]
  · intro h
    unfold calculate_inflight_prayertime at h ⊢
    rcases harg : argwhere (fun d => nle d (1/5)) (diffTimes boundary flight)
      with _ | ⟨i0, rest⟩
    · refine ⟨fun j => ?_, rfl⟩
      have hall := (argwhere_eq_nil_iff _ _).mp harg
      rcases Nat.lt_or_ge j (diffTimes boundary flight).length with hlt | hge
      · have hmem : (diffTimes boundary flight).getD j none ∈
            diffTimes boundary flight := by
          rw [List.getD_eq_getElem _ _ hlt]
          exact List.getElem_mem hlt
        simpa using hall _ hmem
      · rw [List.getD_eq_default _ _ hge]
        rfl
    · rw [harg] at h
      simp at h

theorem C1_witness :
    ((calculate_inflight_prayertime
        (diffTimes [some 1, some 2] [none, some (21/10)])
        [none, some (21/10)]).1 = some 1 ∧
      nle ((diffTimes [some 1, some 2] [none, some (21/10)]).getD 1 none)
          (1/5) = true ∧
      (∀ j < 1, nle ((diffTimes [some 1, some 2] [none, some (21/10)]).getD
          j none) (1/5) = false)) ∧
    nle ((diffTimes [some 1, some 2] [none, some (21/10)]).getD 0 none)
        (1/5) = false ∧
    ((∀ j, nle ((diffTimes [some 3] [some 4]).getD j none) (1/5) = false) ∧
      (calculate_inflight_prayertime (diffTimes [some 3] [some 4])
          [some 4]).2 = none) := by
  refine ⟨⟨by decide, (C1_crossing_detector [some 1, some 2]
      [none, some (21/10)]).2.1 1 (by decide)⟩, ?_, ?_⟩
  · exact (C1_crossing_detector [some 1, some 2] [none, some (21/10)]).2.2.1 0
      (by decide)
  · exact (C1_crossing_detector [some 3] [some 4]).2.2.2 (by decide)

/-- C2 counterexample: at boundary values `[0]` and flight-clock values
`[1/10]` the detector matches at index 0 and returns the flight-clock value
`1/10`, which differs from the boundary's local-hour value `0` — so
`time_hr` is not the boundary's local-hour value at the selected index. -/
theorem C2_counterexample :
    calculate_inflight_prayertime (diffTimes [some 0] [some (1/10)])
        [some (1/10)] = (some 0, some (1/10)) ∧
      [some (0:ℚ)].getD 0 none = some 0 ∧
      (some ((1:ℚ)/10) ≠ some (0:ℚ)) := by
  decide

/-- C2 (amended): whenever the crossing detector finds a match at index
`i`, the returned `time_hr` is the aircraft's flight-clock value at `i`
(not the boundary's computed local-hour value). -/
theorem C2_time_is_flight_clock (diff flight : List (Option ℚ)) (i : ℕ)
    (h : (calculate_inflight_prayertime diff flight).1 = some i) :
    (calculate_inflight_prayertime diff flight).2 = flight.getD i none := by
  unfold calculate_inflight_prayertime at h ⊢
  rcases harg : argwhere (fun d => nle d (1/5)) diff with _ | ⟨i0, rest⟩
  · rw [harg] at h
    simp at h
  · rw [harg] at h
    simp only [Option.some.injEq] at h
    rw [h]

theorem C2_witness :
    (calculate_inflight_prayertime (diffTimes [some 0] [some (1/10)])
        [some (1/10)]).2 = [some ((1:ℚ)/10)].getD 0 none :=
  C2_time_is_flight_clock _ _ 0 (by decide)

/-- C3: midnight-wrap resolution and the final time correction.  In the
early branch, `route_start_time` gains 24 when it is below the declared
departure; in the non-early branch, `departure_time` gains 24 when it is
below the route start; the final `time_correction` is the difference of the
wrap-resolved values, and in the early branch it coincides with the
intermediate assignment that the final line overwrites. -/
theorem C3_wrap_resolution (route dep : ℚ) (early : Bool) :
    (early = true → route < dep →
      route_adjusted route dep early = route + 24 ∧
      departure_adjusted route dep early = dep ∧
      time_correction route dep early = dep - (route + 24)) ∧
    (early = true → ¬ route < dep →
      time_correction route dep early = dep - route) ∧
    (early = false → dep < route →
      departure_adjusted route dep early = dep + 24 ∧
      route_adjusted route dep early = route ∧
      time_correction route dep early = (dep + 24) - route) ∧
    (early = false → ¬ dep < route →
      time_correction route dep early = dep - route) ∧
    (early = true →
      time_correction route dep early = time_correction_early_branch route dep) := by
  refine ⟨?_, ?_, ?_, ?_, ?_⟩
  · intro he hlt
    subst he
    simp [route_adjusted, departure_adjusted, time_correction, hlt]
  · intro he hge
    subst he
    simp [route_adjusted, departure_adjusted, time_correction, hge]
  · intro he hlt
    subst he
    have hge : ¬ route < dep := by
      intro hcon; exact absurd (hlt.trans hcon) (lt_irrefl dep)
    simp [route_adjusted, departure_adjusted, time_correction, hlt, hge]
  · intro he hge
    subst he
    simp [route_adjusted, departure_adjusted, time_correction, hge]
  · intro he
    subst he
    simp [time_correction, time_correction_early_branch, departure_adjusted]

theorem C3_witness :
    departure_adjusted 23 1 false = 1 + 24 ∧
    route_adjusted 23 1 false = 23 ∧
    time_correction 23 1 false = (1 + 24) - 23 :=
  (C3_wrap_resolution 23 1 false).2.2.1 rfl (by norm_num)

/-- C4: if fewer than 1 row survives filtering and trimming, the
computation right after the sanitizer fails (the spec's
`InsufficientTrackData`) and the rest of the pipeline — hence any schedule
construction — is never reached; with at least one surviving row it
proceeds. -/
theorem C4_insufficient_track_data (rows : List RawRow) (β : Type)
    (k : RawRow → List RawRow → β) :
    ((sanitize rows).length < 1 →
      afterSanitize rows k = Except.error "InsufficientTrackData") ∧
    (1 ≤ (sanitize rows).length →
      ∃ r rs, sanitize rows = r :: rs ∧
        afterSanitize rows k = Except.ok (k r (r :: rs))) := by
  rcases h : sanitize rows with _ | ⟨r, rs⟩
  · refine ⟨fun _ => ?_, fun hlen => ?_⟩
    · unfold afterSanitize
      rw [h]
    · simp at hlen
  · refine ⟨fun hlen => ?_, fun _ => ⟨r, rs, rfl, ?_⟩⟩
    · simp at hlen
    · unfold afterSanitize
      rw [h]

theorem C4_witness :
    (sanitize []).length < 1 ∧
    afterSanitize [] (fun _ _ => (0:ℕ)) = Except.error "InsufficientTrackData" :=
  ⟨by decide, (C4_insufficient_track_data [] ℕ _).1 (by decide)⟩

theorem toCombined_snd (p : Option ℕ × Option ℚ) (lab : List Char) :
    (toCombined p lab).2 = lab := by
  rcases p with ⟨_ | i, t⟩ <;> rfl

theorem toCombined_fst_none (p : Option ℕ × Option ℚ) (lab : List Char)
    (h : (toCombined p lab).1.1 = none) : (toCombined p lab).1.2 = none := by
  rcases p with ⟨_ | i, t⟩
  · rfl
  · simp [toCombined] at h

theorem sortKey_none {c : (Option ℕ × Option ℚ) × List Char}
    (h : c.1.1 = none) : sortKey c = (1, 1000000000) := by
  unfold sortKey
  rw [h]

theorem sortKey_some {c : (Option ℕ × Option ℚ) × List Char} {i : ℕ}
    (h : c.1.1 = some i) : sortKey c = (0, i) := by
  unfold sortKey
  rw [h]

@[simp]
theorem entryOfC_index (c : (Option ℕ × Option ℚ) × List Char) :
    (entryOfC c).index = c.1.1 := rfl

theorem combinedLE_of_none {c d : (Option ℕ × Option ℚ) × List Char}
    (hc : c.1.1 = none) (hd : d.1.1 = none) : combinedLE c d := by
  unfold combinedLE
  rw [sortKey_none hc, sortKey_none hd]
  omega

theorem entryOrder_of_combinedLE {c d : (Option ℕ × Option ℚ) × List Char}
    (h : combinedLE c d) : entryOrder (entryOfC c) (entryOfC d) := by
  unfold combinedLE at h
  unfold entryOrder
  rcases hc : c.1.1 with _ | i <;> rcases hd : d.1.1 with _ | j
  · simp [hc, hd]
  · rw [sortKey_none hc, sortKey_some hd] at h
    simp at h
  · simp [hc, hd]
  · rw [sortKey_some hc, sortKey_some hd] at h
    simp at h
    simp [hc, hd]
    omega

/-- C5: the assembled schedule is sorted ascending by track index with
null-index entries after all non-null ones; the null entries appear in
declaration order (stability); and on crossing indices
`[null, 3, null, 1, 5, null]` the assembled order is
`Asr(1), Sunrise(3), Maghrib(5), Fajr(null), Dhuhr(null), Isha(null)`. -/
theorem C5_schedule_order :
    (∀ pf ps pd pa pm pi : Option ℕ × Option ℚ,
      (assemble pf ps pd pa pm pi).Pairwise entryOrder ∧
      (assemble pf ps pd pa pm pi).filter (fun e => e.index.isNone) =
        ((combinedOf pf ps pd pa pm pi).filter
          (fun c => c.1.1.isNone)).map entryOfC) ∧
    (assemble (none, none) (some 3, some 9) (none, none) (some 1, some 7)
        (some 5, some 13) (none, none)).map (fun e => (e.label, e.index)) =
      [(("Asr").data, some 1), (("Sunrise").data, some 3),
       (("Maghrib").data, some 5), (("Fajr").data, none),
       (("Dhuhr").data, none), (("Isha").data, none)] := by
  constructor
  · intro pf ps pd pa pm pi
    constructor
    · exact List.Pairwise.map entryOfC
        (fun a b hab => entryOrder_of_combinedLE hab)
        (List.sorted_insertionSort combinedLE (combinedOf pf ps pd pa pm pi))
    · have hq : ∀ x ∈ (combinedOf pf ps pd pa pm pi).filter
          (fun c => c.1.1.isNone), x.1.1 = none := by
        intro x hx
        have := (List.mem_filter.mp hx).2
        simpa [Option.isNone_iff_eq_none] using this
      have h2 : ((combinedOf pf ps pd pa pm pi).filter
          (fun c => c.1.1.isNone)).Pairwise combinedLE :=
        List.pairwise_of_forall_mem_list
          (fun a ha b hb => combinedLE_of_none (hq a ha) (hq b hb))
      have h3 : List.Sublist
          ((combinedOf pf ps pd pa pm pi).filter (fun c => c.1.1.isNone))
          ((combinedOf pf ps pd pa pm pi).insertionSort combinedLE) :=
        List.sublist_insertionSort h2 (List.filter_sublist _)
      have h4 : List.Perm
          (((combinedOf pf ps pd pa pm pi).insertionSort
            combinedLE).filter (fun c => c.1.1.isNone))
          ((combinedOf pf ps pd pa pm pi).filter (fun c => c.1.1.isNone)) :=
        (List.perm_insertionSort combinedLE _).filter _
      have h5 : ((combinedOf pf ps pd pa pm pi).filter
            (fun c => c.1.1.isNone)).filter (fun c => c.1.1.isNone) =
          (combinedOf pf ps pd pa pm pi).filter (fun c => c.1.1.isNone) :=
        List.filter_eq_self.mpr
          (fun a ha => by simp [Option.isNone_iff_eq_none, hq a ha])
      have h6 := h5 ▸ (h3.filter
        (fun c : (Option ℕ × Option ℚ) × List Char => c.1.1.isNone))
      have h7 : ((combinedOf pf ps pd pa pm pi).insertionSort
            combinedLE).filter (fun c => c.1.1.isNone) =
          (combinedOf pf ps pd pa pm pi).filter (fun c => c.1.1.isNone) :=
        (h6.eq_of_length h4.length_eq.symm).symm
      have hcomp : ((fun e : ScheduleEntry => e.index.isNone) ∘ entryOfC) =
          (fun c : (Option ℕ × Option ℚ) × List Char => c.1.1.isNone) := rfl
      show (((combinedOf pf ps pd pa pm pi).insertionSort
          combinedLE).map entryOfC).filter (fun e => e.index.isNone) = _
      rw [List.filter_map, hcomp, h7]
  · decide

/-- C10: for any detector results, the assembled schedule has exactly six
entries whose labels are a permutation of the six boundary labels, and any
entry with the placeholder (null) index also has a null 24-hour time and
the em-dash time string. -/
theorem C10_schedule_complete (pf ps pd pa pm pi : Option ℕ × Option ℚ) :
    (assemble pf ps pd pa pm pi).length = 6 ∧
    ((assemble pf ps pd pa pm pi).map (fun e => e.label)).Perm prayerLabels ∧
    (∀ e ∈ assemble pf ps pd pa pm pi, e.index = none →
      e.time_24h = none ∧ e.time_12h = ("—").data) := by
  refine ⟨?_, ?_, ?_⟩
  · show (((combinedOf pf ps pd pa pm pi).insertionSort combinedLE).map
        entryOfC).length = 6
    rw [List.length_map, List.length_insertionSort]
    rfl
  · have hp : List.Perm
        (((combinedOf pf ps pd pa pm pi).insertionSort combinedLE).map
          (fun c => c.2))
        ((combinedOf pf ps pd pa pm pi).map (fun c => c.2)) :=
      (List.perm_insertionSort combinedLE _).map _
    have hl : (combinedOf pf ps pd pa pm pi).map (fun c => c.2) =
        prayerLabels := by
      simp [combinedOf, prayerLabels, toCombined_snd]
    have hcomp : ((fun e : ScheduleEntry => e.label) ∘ entryOfC) =
        (fun c : (Option ℕ × Option ℚ) × List Char => c.2) := rfl
    show ((((combinedOf pf ps pd pa pm pi).insertionSort combinedLE).map
        entryOfC).map (fun e => e.label)).Perm prayerLabels
    rw [List.map_map, hcomp, ← hl]
    exact hp
  · intro e he hnone
    simp only [assemble, List.mem_map] at he
    obtain ⟨c, hcmem, rfl⟩ := he
    have hcm : c ∈ combinedOf pf ps pd pa pm pi :=
      (List.mem_insertionSort combinedLE).mp hcmem
    have hidx : c.1.1 = none := hnone
    have htime : c.1.2 = none := by
      simp only [combinedOf, List.mem_cons, List.not_mem_nil, or_false] at hcm
      rcases hcm with h | h | h | h | h | h <;>
        (subst h; exact toCombined_fst_none _ _ hidx)
    show c.1.2.map pyRound3 = none ∧ to_12h c.1.2 = ("—").data
    rw [htime]
    exact ⟨rfl, rfl⟩

theorem C10_witness :
    entryOfC ((none, none), ("Fajr").data) ∈
      assemble (none, none) (none, none) (none, none) (none, none)
        (none, none) (none, none) ∧
    (entryOfC ((none, none), ("Fajr").data)).time_24h = none ∧
    (entryOfC ((none, none), ("Fajr").data)).time_12h = ("—").data := by
  refine ⟨by decide, ?_⟩
  exact (C10_schedule_complete (none, none) (none, none) (none, none)
    (none, none) (none, none) (none, none)).2.2 _ (by decide) rfl

/-- C6 counterexample: formatting decimal hour 24.0 does not produce the
12-hour string for midnight. -/
theorem C6_counterexample : to_12h (some 24) ≠ ("12:00 AM").data := by
  decide

/-- C6 (amended): the schedule's time formatter maps a null hour to the
em-dash placeholder, and maps decimal hour 24.0 through the `hrs > 12`
branch to `"12:00 PM"` (noon); it does not wrap 24.0 to 0.0. -/
theorem C6_formatter :
    to_12h none = ("—").data ∧ to_12h (some 24) = ("12:00 PM").data := by
  constructor
  · rfl
  · decide

set_option maxRecDepth 10000 in
set_option maxHeartbeats 2000000 in
/-- C7 counterexample: under the source's binary64 float arithmetic the
round trip loses a minute on `"01:01 AM"`: the decimal value
`1 + 1/60` converts back to `"01:00 AM"`, not `"01:01 AM"`. -/
theorem C7_counterexample :
    roundTripF (("01:01 AM").data) = some (("01:00 AM").data) ∧
    ("01:00 AM").data ≠ ("01:01 AM").data := by
  constructor
  · decide
  · decide

set_option maxRecDepth 10000 in
set_option maxHeartbeats 8000000 in
/-- C7 (amended): for every well-formed 12-hour clock string
`"HH:MM AM|PM"` (hours 01–12, minutes 00–59, both meridiems), the round
trip through `Extract24HrTime`, the decimal value `hour + minute/60`, and
`ConvertTo12Hr` returns the same string — provided that decimal value is
formed in exact arithmetic.  (Under the source's binary64 evaluation this
fails for some minutes; see the counterexample.) -/
theorem C7_roundtrip_exact :
    ∀ h : ℕ, h < 13 → 1 ≤ h → ∀ m : ℕ, m < 60 →
      roundTripQ (mk12h h m false) = some (mk12h h m false) ∧
      roundTripQ (mk12h h m true) = some (mk12h h m true) := by
  decide

theorem C7_witness :
    roundTripQ (mk12h 12 0 false) = some (mk12h 12 0 false) ∧
    roundTripQ (mk12h 12 0 true) = some (mk12h 12 0 true) :=
  C7_roundtrip_exact 12 (by norm_num) (by norm_num) 0 (by norm_num)

/-- A helper for C8: the python float-mod normalization lands in
`[0, b)` for positive modulus. -/
theorem pyModR_mem_Ico (a : ℝ) : pyModR a 360 ∈ Set.Ico (0:ℝ) 360 := by
  have h : pyModR a 360 = 360 * Int.fract (a / 360) := by
    unfold pyModR Int.fract
    ring
  rw [h]
  constructor
  · exact mul_nonneg (by norm_num) (Int.fract_nonneg _)
  · have hlt := Int.fract_lt_one (a / 360)
    nlinarith [Int.fract_nonneg (a / 360)]

theorem atan2_zero_zero : atan2 0 0 = 0 := by
  unfold atan2
  norm_num

/-- C8: `qibla_direction` is the normalized initial bearing: for every
input it lies in `[0, 360)`, and evaluated at the target's own coordinates
(21.4225, 39.8262) it is defined and equals 0 (since `atan2 0 0 = 0`). -/
theorem C8_qibla_direction :
    (∀ lat lon : ℝ, qibla_direction lat lon ∈ Set.Ico (0:ℝ) 360) ∧
    qibla_direction 21.4225 39.8262 = 0 := by
  constructor
  · intro lat lon
    exact pyModR_mem_Ico _
  · show pyModR (degrees (atan2
        (Real.sin (radians 39.8262 - radians 39.8262) *
          Real.cos (radians 21.4225))
        (Real.cos (radians 21.4225) * Real.sin (radians 21.4225) -
          Real.sin (radians 21.4225) * Real.cos (radians 21.4225) *
          Real.cos (radians 39.8262 - radians 39.8262))) + 360) 360 = 0
    rw [sub_self, Real.cos_zero, Real.sin_zero, zero_mul, mul_one]
    rw [show Real.cos (radians 21.4225) * Real.sin (radians 21.4225) -
        Real.sin (radians 21.4225) * Real.cos (radians 21.4225) = 0 by ring]
    rw [atan2_zero_zero]
    unfold degrees pyModR
    rw [zero_mul, zero_div, zero_add]
    rw [show (360:ℝ) / 360 = 1 by norm_num]
    rw [Int.floor_one]
    norm_num

theorem pyRepeat_nil (k : ℕ) : pyRepeat [] k = [] := by
  induction k with
  | zero => rfl
  | succ n ih => simp [pyRepeat, ih]

theorem pyRepeat_length (p : List Char) (k : ℕ) :
    (pyRepeat p k).length = k * p.length := by
  induction k with
  | zero => simp [pyRepeat]
  | succ n ih =>
    simp [pyRepeat, ih]
    ring

/-- Behaviour of the candidate loop of `get_repeated_substring` on a
contiguous candidate range: either no candidate length in the range is a
clean period (and the loop returns the string), or the loop returns the
prefix at the first candidate in the range that is one. -/
theorem grsAux_range_spec (s : List Char) :
    ∀ (len start : ℕ),
      (grsAux s (List.range' start len) = s ∧
        ∀ i, start ≤ i → i < start + len →
          s ≠ pyRepeat (s.take i) (s.length / i)) ∨
      (∃ i, start ≤ i ∧ i < start + len ∧
        s = pyRepeat (s.take i) (s.length / i) ∧
        (∀ j, start ≤ j → j < i → s ≠ pyRepeat (s.take j) (s.length / j)) ∧
        grsAux s (List.range' start len) = s.take i) := by
  intro len
  induction len with
  | zero =>
    intro start
    left
    refine ⟨rfl, ?_⟩
    intro i h1 h2
    omega
  | succ n ih =>
    intro start
    rw [List.range'_succ]
    by_cases hc : s = pyRepeat (s.take start) (s.length / start)
    · right
      refine ⟨start, le_refl _, by omega, hc, ?_, ?_⟩
      · intro j h1 h2
        omega
      · unfold grsAux
        rw [if_pos hc]
    · rcases ih (start + 1) with ⟨heq, hall⟩ | ⟨i, hi1, hi2, hrep, hfirst, heq⟩
      · left
        refine ⟨?_, ?_⟩
        · unfold grsAux
          rw [if_neg hc]
          exact heq
        · intro i h1 h2
          rcases Nat.eq_or_lt_of_le h1 with h | h
          · rw [← h]
            exact hc
          · exact hall i (by omega) (by omega)
      · right
        refine ⟨i, by omega, by omega, hrep, ?_, ?_⟩
        · intro j h1 h2
          rcases Nat.eq_or_lt_of_le h1 with h | h
          · rw [← h]
            exact hc
          · exact hfirst j (by omega) h2
        · unfold grsAux
          rw [if_neg hc]
          exact heq

/-- A proper period of a string has length at least 1 and at most half the
string, and the string is that many repetitions of its own prefix of that
length. -/
theorem period_le_half {s p : List Char} {k : ℕ} (hp : p <+: s)
    (hk : s = pyRepeat p k) (hlt : p.length < s.length) :
    1 ≤ p.length ∧ p.length ≤ s.length / 2 ∧
      s = pyRepeat (s.take p.length) (s.length / p.length) := by
  have hlen : s.length = k * p.length := by rw [hk, pyRepeat_length]
  rcases Nat.eq_zero_or_pos p.length with h0 | h1
  · have hpnil : p = [] := List.length_eq_zero.mp h0
    subst hpnil
    rw [pyRepeat_nil] at hk
    subst hk
    simp at hlt
  · have hkcase : k = 0 ∨ k = 1 ∨ 2 ≤ k := by omega
    rcases hkcase with h | h | h
    · subst h
      have : s.length = 0 := by simpa using hlen
      omega
    · subst h
      have : s.length = p.length := by simpa using hlen
      omega
    · have hhalf : p.length ≤ s.length / 2 := by
        have h2 : p.length * 2 ≤ s.length := by
          calc p.length * 2 = 2 * p.length := by ring
            _ ≤ k * p.length := Nat.mul_le_mul_right _ h
            _ = s.length := hlen.symm
        exact (Nat.le_div_iff_mul_le (by norm_num)).mpr h2
      have htake : s.take p.length = p := (List.prefix_iff_eq_take.mp hp).symm
      have hdiv : s.length / p.length = k := by
        rw [hlen]
        exact Nat.mul_div_cancel k h1
      refine ⟨h1, hhalf, ?_⟩
      rw [htake, hdiv]
      exact hk

/-- C9: `get_repeated_substring` returns a prefix of its input of which the
input is a whole number of repetitions, of minimal length among all such
prefixes, and returns the input itself when no proper prefix qualifies;
`"350350"` reduces to `"350"` and `"12"` stays `"12"`. -/
theorem C9_get_repeated_substring :
    (∀ s : List Char,
      get_repeated_substring s <+: s ∧
      (∃ k, s = pyRepeat (get_repeated_substring s) k) ∧
      (∀ p k, p <+: s → s = pyRepeat p k →
        (get_repeated_substring s).length ≤ p.length) ∧
      ((∀ p, p <+: s → p.length < s.length → ∀ k, s ≠ pyRepeat p k) →
        get_repeated_substring s = s)) ∧
    get_repeated_substring (("350350").data) = ("350").data ∧
    get_repeated_substring (("12").data) = ("12").data := by
  refine ⟨?_, by decide, by decide⟩
  intro s
  unfold get_repeated_substring
  rcases grsAux_range_spec s (s.length / 2) 1 with ⟨heq, hall⟩ |
    ⟨i, hi1, hi2, hrep, hfirst, heq⟩
  · rw [heq]
    refine ⟨⟨[], List.append_nil s⟩, ⟨1, by simp [pyRepeat]⟩, ?_, fun _ => rfl⟩
    intro p k hp hk
    by_contra hcon
    push_neg at hcon
    obtain ⟨h1, hhalf, hper⟩ := period_le_half hp hk hcon
    exact hall p.length h1 (by omega) hper
  · rw [heq]
    have hi2' : i ≤ s.length / 2 := by omega
    have hn2 : 2 ≤ s.length := by omega
    have hilen : (s.take i).length = i := by
      rw [List.length_take]
      omega
    refine ⟨⟨s.drop i, List.take_append_drop i s⟩,
      ⟨s.length / i, hrep⟩, ?_, ?_⟩
    · intro p k hp hk
      rw [hilen]
      by_contra hcon
      push_neg at hcon
      have hlt : p.length < s.length := by omega
      obtain ⟨h1, hhalf, hper⟩ := period_le_half hp hk hlt
      exact hfirst p.length h1 hcon hper
    · intro hno
      exfalso
      exact hno (s.take i) ⟨s.drop i, List.take_append_drop i s⟩
        (by rw [hilen]; omega) (s.length / i) hrep

theorem C9_witness :
    (get_repeated_substring (("350350").data)).length ≤ ("350").data.length :=
  (C9_get_repeated_substring.1 (("350350").data)).2.2.1 (("350").data) 2
    ⟨("350").data, rfl⟩ (by decide)

end Salah35k
